import Mathlib

/-!
Verification of the series-detection core of `src/js/series-manager.js`
(a JavaScript `SeriesManager` class).  The JavaScript code is shallowly
embedded: every method of the class becomes a Lean definition over
`List Char` / `String`, JavaScript `Map` (insertion-ordered, unique keys)
becomes an association list, and the mutable cache of the class becomes
explicit state passing.  JavaScript regular expressions are embedded via a
small fuelled backtracking engine whose alternation / greedy / lazy orders
follow the ECMAScript matching semantics; the 17 + 2 patterns of
`extractVolumeNumber` are transliterated node by node.
-/

set_option maxRecDepth 8000

namespace SeriesManagerJs

/-! ### Character-level normalization (`normalizeString`) -/

/-- The ECMAScript `\s` class (WhiteSpace ∪ LineTerminator): this is also
exactly the set stripped by `String.prototype.trim`. -/
def isJsWs (c : Char) : Bool :=
  let n := c.toNat
  n == 0x9 || n == 0xA || n == 0xB || n == 0xC || n == 0xD || n == 0x20 ||
  n == 0xA0 || n == 0x1680 || (0x2000 ≤ n && n ≤ 0x200A) || n == 0x2028 ||
  n == 0x2029 || n == 0x202F || n == 0x205F || n == 0x3000 || n == 0xFEFF

/-- The single-character substitutions of `normalizeString`, in source order.
Each `.replace` of the source rewrites one character to one character, and no
output character of an earlier rule is in the domain of a later rule, so the
sequential global replaces equal one character map. -/
def normChar (c : Char) : Char :=
  -- 全角英数字を半角に: /[Ａ-Ｚａ-ｚ０-９]/ shifted down by 0xFEE0
  if (0xFF21 ≤ c.toNat ∧ c.toNat ≤ 0xFF3A) ∨ (0xFF41 ≤ c.toNat ∧ c.toNat ≤ 0xFF5A) ∨
      (0xFF10 ≤ c.toNat ∧ c.toNat ≤ 0xFF19) then
    Char.ofNat (c.toNat - 0xFEE0)
  -- 全角括弧を半角に
  else if c = '（' then '(' else if c = '）' then ')'
  else if c = '【' then '[' else if c = '】' then ']'
  else if c = '「' then '[' else if c = '」' then ']'
  -- 全角スペースを半角に
  else if c = '　' then ' '
  -- 全角コロン・セミコロンを半角に
  else if c = '：' then ':' else if c = '；' then ';'
  -- 各種ダッシュ・ハイフンを統一: /[－―─ー−]/ → '-'
  else if c = '－' then '-' else if c = '―' then '-' else if c = '─' then '-'
  else if c = 'ー' then '-' else if c = '−' then '-'
  -- 各種チルダを統一: /[～〜]/ → '~'
  else if c = '～' then '~' else if c = '〜' then '~'
  -- 全角記号を半角に
  else if c = '！' then '!' else if c = '？' then '?'
  else if c = '＆' then '&' else if c = '＊' then '*'
  else if c = '＋' then '+' else if c = '，' then ','
  else if c = '．' then '.'
  else c

/-- `.replace(/\s+/g, ' ')`: every maximal run of `\s` characters becomes a
single ASCII space (the last character of a run emits the space). -/
def collapseWs : List Char → List Char
  | [] => []
  | [c] => if isJsWs c then [' '] else [c]
  | c :: d :: rest =>
    if isJsWs c && isJsWs d then collapseWs (d :: rest)
    else (if isJsWs c then ' ' else c) :: collapseWs (d :: rest)

/-- Drop a trailing run of characters satisfying `p`. -/
def dropTrailing (p : Char → Bool) (l : List Char) : List Char :=
  (l.reverse.dropWhile p).reverse

/-- `String.prototype.trim` on a character list. -/
def trimList (l : List Char) : List Char :=
  dropTrailing isJsWs (l.dropWhile isJsWs)

/-- the character-list body of `normalizeString`: substitutions, whitespace
collapse, trim -/
def normListFull (l : List Char) : List Char :=
  trimList (collapseWs (l.map normChar))

/-- `normalizeString(str)`: full-width → half-width character map, then
whitespace collapse, then trim.  `if (!str) return ''` is the empty-string
guard (absent input is modelled as the empty string, equally falsy). -/
def normalizeString (s : String) : String :=
  if s = "" then "" else String.mk (normListFull s.data)

/-! ### A fuelled backtracking regex engine

All patterns in the source are anchored `^...$` and use at most two capture
groups, so a match is a pair of captured substrings.  Backtracking order
follows ECMAScript: alternation tries the left branch first, a greedy
quantifier tries longer iterations first, a lazy quantifier shorter first,
and a repetition iteration that consumes nothing fails (RepeatMatcher's
empty-match rule). -/

/-- Regex AST: character class, sequence, alternation, capturing group
(index 1 or 2), greedy star, lazy star, greedy option. -/
inductive RE : Type where
  | cls (p : Char → Bool)
  | seq (r1 r2 : RE)
  | alt (r1 r2 : RE)
  | group (i : Nat) (r : RE)
  | starG (r : RE)
  | starL (r : RE)
  | opt (r : RE)

/-- Captured substrings for groups 1 and 2. -/
structure Caps where
  g1 : List Char := []
  g2 : List Char := []
deriving DecidableEq, Repr

def setCap (i : Nat) (v : List Char) (c : Caps) : Caps :=
  if i = 1 then { c with g1 := v } else { c with g2 := v }

def orElseO {α : Type} : Option α → Option α → Option α
  | some a, _ => some a
  | none, b => b

/-- CPS backtracking matcher.  `fuel` bounds the call depth only (every
recursive call decrements it); it never bounds the backtracking width, so a
large enough fuel makes the result independent of fuel. -/
def matchRE : Nat → RE → List Char → Caps → (List Char → Caps → Option Caps) →
    Option Caps
  | 0, _, _, _, _ => none
  | Nat.succ fuel, r, s, caps, k =>
    match r with
    | RE.cls p =>
      match s with
      | [] => none
      | c :: rest => if p c then k rest caps else none
    | RE.seq r1 r2 =>
      matchRE fuel r1 s caps (fun s' caps' => matchRE fuel r2 s' caps' k)
    | RE.alt r1 r2 =>
      orElseO (matchRE fuel r1 s caps k) (matchRE fuel r2 s caps k)
    | RE.group i r1 =>
      matchRE fuel r1 s caps
        (fun s' caps' => k s' (setCap i (s.take (s.length - s'.length)) caps'))
    | RE.starG r1 =>
      orElseO
        (matchRE fuel r1 s caps (fun s' caps' =>
          if s'.length < s.length then matchRE fuel (RE.starG r1) s' caps' k
          else none))
        (k s caps)
    | RE.starL r1 =>
      orElseO (k s caps)
        (matchRE fuel r1 s caps (fun s' caps' =>
          if s'.length < s.length then matchRE fuel (RE.starL r1) s' caps' k
          else none))
    | RE.opt r1 =>
      orElseO (matchRE fuel r1 s caps k) (k s caps)

/-- Match an `^...$`-anchored regex against the whole input: the top-level
continuation demands an empty remainder. -/
def regexMatch (r : RE) (s : List Char) : Option Caps :=
  matchRE (20 * s.length + 400) r s {}
    (fun rest caps => if rest.isEmpty then some caps else none)

/-! ### Regex building blocks used by the source patterns -/

/-- `.` — any character but a LineTerminator. -/
def reDot : RE :=
  RE.cls (fun c => !(c == '\n' || c == '\r' || c.toNat == 0x2028 || c.toNat == 0x2029))

/-- `\d` -/
def reDigit : RE := RE.cls (fun c => '0' ≤ c && c ≤ '9')

/-- `\s` -/
def reWs : RE := RE.cls isJsWs

/-- a literal character -/
def reLit (c : Char) : RE := RE.cls (fun d => d == c)

/-- greedy `+` -/
def rePlusG (r : RE) : RE := RE.seq r (RE.starG r)

/-- lazy `+?` -/
def rePlusL (r : RE) : RE := RE.seq r (RE.starL r)

/-- a sequence of regex pieces -/
def reSeq (l : List RE) : RE :=
  match l with
  | [] => RE.opt (RE.cls (fun _ => false))
  | [r] => r
  | r :: rest => RE.seq r (reSeq rest)

/-- `(.+?)` as group `i` -/
def reLazyDots (i : Nat) : RE := RE.group i (rePlusL reDot)

/-- `(\d+)` as group `i` -/
def reNum (i : Nat) : RE := RE.group i (rePlusG reDigit)

/-- a case-insensitive ASCII letter (for the `/i` flag on `Vol`) -/
def reCi (lower upper : Char) : RE := RE.cls (fun c => c == lower || c == upper)

/-! ### The volume patterns of `extractVolumeNumber`, in source order -/

/-- `[^\d\s]` -/
def reNonDigitNonWs : RE :=
  RE.cls (fun c => !(('0' ≤ c && c ≤ '9') || isJsWs c))

/-- `\S` -/
def reNonWs : RE := RE.cls (fun c => !isJsWs c)

/-- the priority-ordered pattern list (`patterns` in the source) -/
def volumePatterns : List RE :=
  [ -- /^(.+?)\s*\(?第?(\d+)巻\)?\s*$/
    reSeq [reLazyDots 1, RE.starG reWs, RE.opt (reLit '('), RE.opt (reLit '第'),
      reNum 2, reLit '巻', RE.opt (reLit ')'), RE.starG reWs],
    -- /^(.+?)\s+第?(\d+)巻\s*.*$/
    reSeq [reLazyDots 1, rePlusG reWs, RE.opt (reLit '第'), reNum 2, reLit '巻',
      RE.starG reWs, RE.starG reDot],
    -- /^(.+?)\s*第(\d+)巻\s*$/
    reSeq [reLazyDots 1, RE.starG reWs, reLit '第', reNum 2, reLit '巻',
      RE.starG reWs],
    -- /^(.+?)\s+第(\d+)話.+$/
    reSeq [reLazyDots 1, rePlusG reWs, reLit '第', reNum 2, reLit '話',
      rePlusG reDot],
    -- /^(.+?)\s*\(?Vol\.?\s*(\d+)\)?\s*$/i
    reSeq [reLazyDots 1, RE.starG reWs, RE.opt (reLit '('), reCi 'v' 'V',
      reCi 'o' 'O', reCi 'l' 'L', RE.opt (reLit '.'), RE.starG reWs, reNum 2,
      RE.opt (reLit ')'), RE.starG reWs],
    -- /^(.+?)\s+分冊版(\d+)\s*$/
    reSeq [reLazyDots 1, rePlusG reWs, reLit '分', reLit '冊', reLit '版',
      reNum 2, RE.starG reWs],
    -- /^(.+?)\s*:\s*(\d+)\s+.+$/
    reSeq [reLazyDots 1, RE.starG reWs, reLit ':', RE.starG reWs, reNum 2,
      rePlusG reWs, rePlusG reDot],
    -- /^(.+?)\((\d+)\)\s+\(.+\)\s*$/
    reSeq [reLazyDots 1, reLit '(', reNum 2, reLit ')', rePlusG reWs,
      reLit '(', rePlusG reDot, reLit ')', RE.starG reWs],
    -- /^(.+?)\((\d+)\)\s+.+$/
    reSeq [reLazyDots 1, reLit '(', reNum 2, reLit ')', rePlusG reWs,
      rePlusG reDot],
    -- /^(.+?)\((\d+)\)\S.+$/
    reSeq [reLazyDots 1, reLit '(', reNum 2, reLit ')', reNonWs, rePlusG reDot],
    -- /^(.+?[^\d\s])(\d+)\s+.+\s*\(.+\)\s*$/
    reSeq [RE.group 1 (RE.seq (rePlusL reDot) reNonDigitNonWs), reNum 2,
      rePlusG reWs, rePlusG reDot, RE.starG reWs, reLit '(', rePlusG reDot,
      reLit ')', RE.starG reWs],
    -- /^(.+?)\s*\((\d+)\)\s*$/
    reSeq [reLazyDots 1, RE.starG reWs, reLit '(', reNum 2, reLit ')',
      RE.starG reWs],
    -- /^(.+?)\s+(\d+)\s*\(.+\)\s*$/
    reSeq [reLazyDots 1, rePlusG reWs, reNum 2, RE.starG reWs, reLit '(',
      rePlusG reDot, reLit ')', RE.starG reWs],
    -- /^(.+?)\s+(\d+)\s*$/
    reSeq [reLazyDots 1, rePlusG reWs, reNum 2, RE.starG reWs],
    -- /^(.+?\))(\d+)$/
    reSeq [RE.group 1 (RE.seq (rePlusL reDot) (reLit ')')), reNum 2],
    -- /^(.+?)\s*\(?(上|中|下)\)?\s*$/
    reSeq [reLazyDots 1, RE.starG reWs, RE.opt (reLit '('),
      RE.group 2 (RE.alt (reLit '上') (RE.alt (reLit '中') (reLit '下'))),
      RE.opt (reLit ')'), RE.starG reWs],
    -- /^(.+?)\s+(一|二|三|四|五|六|七|八|九|十)[ノの]巻\s*$/
    reSeq [reLazyDots 1, rePlusG reWs,
      RE.group 2 (RE.alt (reLit '一') (RE.alt (reLit '二') (RE.alt (reLit '三')
        (RE.alt (reLit '四') (RE.alt (reLit '五') (RE.alt (reLit '六')
        (RE.alt (reLit '七') (RE.alt (reLit '八') (RE.alt (reLit '九')
        (reLit '十')))))))))),
      RE.cls (fun c => c == 'ノ' || c == 'の'), reLit '巻', RE.starG reWs] ]

/-- 特殊パターン `/^番外編(\d+)巻\s+(.+)$/` -/
def prefixVolumeRe : RE :=
  reSeq [reLit '番', reLit '外', reLit '編', reNum 1, reLit '巻', rePlusG reWs,
    RE.group 2 (rePlusG reDot)]

/-- 特殊パターン `/^(\d+)[~\-]\d+\s+(.+)$/` -/
def prefixRangeRe : RE :=
  reSeq [reNum 1, RE.cls (fun c => c == '~' || c == '-'), rePlusG reDigit,
    rePlusG reWs, RE.group 2 (rePlusG reDot)]

/-! ### `extractVolumeNumber` -/

structure ExtractedTitle where
  volumeNumber : Option Nat
  normalizedTitle : String
deriving DecidableEq, Repr

/-- the `kanjiToNumber` lookup table of the source -/
def kanjiToNumber (s : String) : Option Nat :=
  if s = "上" then some 1 else if s = "中" then some 2
  else if s = "下" then some 3
  else if s = "一" then some 1 else if s = "二" then some 2
  else if s = "三" then some 3 else if s = "四" then some 4
  else if s = "五" then some 5 else if s = "六" then some 6
  else if s = "七" then some 7 else if s = "八" then some 8
  else if s = "九" then some 9 else if s = "十" then some 10
  else none

/-- `parseInt(str, 10)` restricted to the nonempty all-digit tokens captured
by `(\d+)` — a base-10 digit fold. -/
def jsParseIntDigits (l : List Char) : Nat :=
  l.foldl (fun n c => n * 10 + (c.toNat - 48)) 0

/-- characters stripped from the tail of a matched series name:
`/[\s:;\-~]+$/` -/
def stripSepChar (c : Char) : Bool :=
  isJsWs c || c == ':' || c == ';' || c == '-' || c == '~'

/-- `match[1].trim()` then `.replace(/[\s:;\-~]+$/, '')` then `.trim()` -/
def cleanSeriesTitle (l : List Char) : List Char :=
  trimList (dropTrailing stripSepChar (trimList l))

/-- first-match-wins over the priority-ordered pattern list -/
def tryPatterns : List RE → List Char → Option Caps
  | [], _ => none
  | r :: rs, s =>
    match regexMatch r s with
    | some c => some c
    | none => tryPatterns rs s

/-- `extractVolumeNumber(title)`: normalize, try the two anchored special
patterns, then the pattern list in priority order; resolve the captured
volume token through `kanjiToNumber` or `parseInt`. -/
def extractVolumeNumber (title : String) : ExtractedTitle :=
  if title = "" then { volumeNumber := none, normalizedTitle := "" }
  else
    let normalizedTitle := normalizeString title
    let s := normalizedTitle.data
    match regexMatch prefixVolumeRe s with
    | some caps =>
      { volumeNumber := some (jsParseIntDigits caps.g1),
        normalizedTitle := String.mk (trimList caps.g2) }
    | none =>
      match regexMatch prefixRangeRe s with
      | some caps =>
        { volumeNumber := some (jsParseIntDigits caps.g1),
          normalizedTitle := String.mk (trimList caps.g2) }
      | none =>
        match tryPatterns volumePatterns s with
        | some caps =>
          let vn :=
            match kanjiToNumber (String.mk caps.g2) with
            | some n => n
            | none => jsParseIntDigits caps.g2
          { volumeNumber := some vn,
            normalizedTitle := String.mk (cleanSeriesTitle caps.g1) }
        | none =>
          { volumeNumber := none, normalizedTitle := String.mk (trimList s) }

/-! ### `normalizeForId` and `generateSeriesId` -/

/-- ASCII case folding for one character.  `String.prototype.toLowerCase`
is modelled character-wise; the inputs fed to it here have already passed
`normalizeString`, whose full-width→half-width shift leaves ASCII as the
only cased letters the patterns and examples exercise. -/
def jsToLowerChar (c : Char) : Char :=
  if 'A' ≤ c && c ≤ 'Z' then Char.ofNat (c.toNat + 32) else c

/-- `str.toLowerCase()` -/
def jsToLower (s : String) : String := String.mk (s.data.map jsToLowerChar)

/-- the stripped set of `normalizeForId`: `/[\s\-:;·・、。,.!?'"()[\]<>]/` -/
def stripIdChar (c : Char) : Bool :=
  isJsWs c || c == '-' || c == ':' || c == ';' || c == '·' || c == '・' ||
  c == '、' || c == '。' || c == ',' || c == '.' || c == '!' || c == '?' ||
  c == Char.ofNat 39 || c == '"' || c == '(' || c == ')' || c == '[' ||
  c == ']' || c == '<' || c == '>'

/-- `normalizeForId(str)`: full normalization, lower-case, strip the
punctuation/space set, trim. -/
def normalizeForId (s : String) : String :=
  if s = "" then ""
  else
    let normalized := normalizeString s
    String.mk (trimList ((normalized.data.map jsToLowerChar).filter
      (fun c => !stripIdChar c)))

/-- `generateSeriesId(normalizedTitle, authors)`: title only — the authors
parameter is kept but deliberately unused (著者表記の揺れに対応). -/
def generateSeriesId (normalizedTitle : String) (authors : String) : String :=
  normalizeForId normalizedTitle

/-! ### Data model -/

structure Book where
  asin : String
  title : String
  authors : String
  readStatus : String
deriving DecidableEq, Repr

structure VolumeEntry where
  book : Book
  volumeNumber : Option Nat
deriving DecidableEq, Repr

/-- an entry of the intermediate `seriesMap` (before the ≥ 2 filter) -/
structure SeriesEntry where
  seriesId : String
  seriesName : String
  authors : String
  volumes : List VolumeEntry
deriving DecidableEq, Repr

structure SeriesInfo where
  seriesId : String
  seriesName : String
  authors : String
  volumes : List VolumeEntry
  representativeBook : Book
  totalVolumes : Nat
deriving DecidableEq, Repr

structure SeriesProgress where
  total : Nat
  read : Nat
  unread : Nat
deriving DecidableEq, Repr

/-- the mutable fields of the `SeriesManager` class -/
structure SeriesManager where
  seriesGroups : List SeriesInfo
  bookToSeriesMap : List (String × String)
  cacheValid : Bool
deriving DecidableEq, Repr

/-- the constructor state -/
def SeriesManager.init : SeriesManager :=
  { seriesGroups := [], bookToSeriesMap := [], cacheValid := false }

/-! JavaScript `Map` as an insertion-ordered association list. -/

def mapGet (m : List (String × String)) (k : String) : Option String :=
  (m.find? (fun p => p.1 == k)).map (·.2)

def mapSet (m : List (String × String)) (k v : String) :
    List (String × String) :=
  if m.any (fun p => p.1 == k) then
    m.map (fun p => if p.1 == k then (p.1, v) else p)
  else m ++ [(k, v)]

def smHasKey (m : List (String × SeriesEntry)) (k : String) : Bool :=
  m.any (fun p => p.1 == k)

/-- `seriesMap.get(seriesId).volumes.push(entry)` -/
def smPush (m : List (String × SeriesEntry)) (k : String) (v : VolumeEntry) :
    List (String × SeriesEntry) :=
  m.map (fun p =>
    if p.1 == k then (p.1, { p.2 with volumes := p.2.volumes ++ [v] }) else p)

/-! ### The grouping pass of `detectAndGroupSeries` -/

/-- the `books.forEach` body: skip books without title/authors or without a
detected volume number, then bucket by `generateSeriesId` (creating the
bucket with the first-seen book's name and authors). -/
def detectStep (m : List (String × SeriesEntry)) (book : Book) :
    List (String × SeriesEntry) :=
  if book.title == "" || book.authors == "" then m
  else
    let e := extractVolumeNumber book.title
    match e.volumeNumber with
    | none => m
    | some _ =>
      let seriesId := generateSeriesId e.normalizedTitle book.authors
      let m' :=
        if smHasKey m seriesId then m
        else m ++ [(seriesId,
          { seriesId := seriesId, seriesName := e.normalizedTitle,
            authors := book.authors, volumes := [] })]
      smPush m' seriesId { book := book, volumeNumber := e.volumeNumber }

/-- the sort comparator on volumes (`a.volumeNumber - b.volumeNumber`, with
`null` sorted last) -/
def seriesVolumeCmp (a b : VolumeEntry) : Int :=
  match a.volumeNumber, b.volumeNumber with
  | none, _ => 1
  | some _, none => -1
  | some m, some n => (m : Int) - n

def jsInsertVolume (v : VolumeEntry) : List VolumeEntry → List VolumeEntry
  | [] => [v]
  | w :: ws =>
    if seriesVolumeCmp v w ≤ 0 then v :: w :: ws else w :: jsInsertVolume v ws

/-- `seriesData.volumes.sort(cmp)`.  ECMAScript requires `Array.prototype.sort`
to be stable, and on every array this program sorts the comparator is
consistent (each entry carries a volume number), which makes the stable
sorted result unique; it is computed here by a stable insertion sort. -/
def jsSortVolumes (l : List VolumeEntry) : List VolumeEntry :=
  l.foldr jsInsertVolume []

def dummyVolume : VolumeEntry := { book := ⟨"", "", "", ""⟩, volumeNumber := none }

/-- build one `SeriesInfo` from a qualifying bucket (`volumes[0]` exists in
the guarded branch; `headD` supplies the out-of-bounds default JavaScript
would never read). -/
def mkSeriesInfo (p : String × SeriesEntry) : SeriesInfo :=
  let sortedVols := jsSortVolumes p.2.volumes
  { seriesId := p.1
    seriesName := p.2.seriesName
    authors := p.2.authors
    volumes := sortedVols
    representativeBook := (sortedVols.headD dummyVolume).book
    totalVolumes := sortedVols.length }

/-- the `seriesMap.forEach` pass: keep buckets with ≥ 2 volumes, sort each,
emit the `SeriesInfo` and register every member book in the index. -/
def buildResult (seriesMap : List (String × SeriesEntry)) :
    List SeriesInfo × List (String × String) :=
  seriesMap.foldl
    (fun acc p =>
      if 2 ≤ p.2.volumes.length then
        let info := mkSeriesInfo p
        (acc.1 ++ [info],
         info.volumes.foldl (fun m v => mapSet m v.book.asin info.seriesId) acc.2)
      else acc)
    ([], [])

/-- the cache-miss computation of `detectAndGroupSeries` -/
def detectCompute (books : List Book) :
    List SeriesInfo × List (String × String) :=
  buildResult (books.foldl detectStep [])

/-- `detectAndGroupSeries(books)`: return the cache when it is valid and
non-empty, otherwise recompute and fill the cache. -/
def SeriesManager.detectAndGroupSeries (st : SeriesManager) (books : List Book) :
    (List SeriesInfo × List (String × String)) × SeriesManager :=
  if st.cacheValid ∧ 0 < st.seriesGroups.length then
    ((st.seriesGroups, st.bookToSeriesMap), st)
  else
    let r := detectCompute books
    (r, { seriesGroups := r.1, bookToSeriesMap := r.2, cacheValid := true })

/-- `clearCache()` -/
def SeriesManager.clearCache (_st : SeriesManager) : SeriesManager :=
  { seriesGroups := [], bookToSeriesMap := [], cacheValid := false }

/-- `getSeriesById(seriesId)` (`.find(...) || null`) -/
def SeriesManager.getSeriesById (st : SeriesManager) (seriesId : String) :
    Option SeriesInfo :=
  st.seriesGroups.find? (fun s => s.seriesId == seriesId)

/-- `getSeriesByBookAsin(asin)`: index lookup, then the falsy guard
`if (!seriesId) return null` (absent key or empty-string id), then series
lookup. -/
def SeriesManager.getSeriesByBookAsin (st : SeriesManager) (asin : String) :
    Option SeriesInfo :=
  match mapGet st.bookToSeriesMap asin with
  | none => none
  | some seriesId => if seriesId = "" then none else st.getSeriesById seriesId

/-- the duck-typed argument of `getSeriesProgress`: an object whose
`volumes` field may be missing (`!series.volumes`). -/
structure ProgressArg where
  volumes : Option (List VolumeEntry)
deriving DecidableEq, Repr

/-- `getSeriesProgress(series)`: zero progress for an absent argument or a
missing `volumes` field, else count volumes whose `readStatus` is truthy and
case-insensitively equals `"read"`. -/
def getSeriesProgress (series : Option ProgressArg) : SeriesProgress :=
  match series with
  | none => { total := 0, read := 0, unread := 0 }
  | some s =>
    match s.volumes with
    | none => { total := 0, read := 0, unread := 0 }
    | some vols =>
      let total := vols.length
      let read := vols.foldl
        (fun r v =>
          if v.book.readStatus ≠ "" ∧ jsToLower v.book.readStatus = "read" then
            r + 1
          else r) 0
      { total := total, read := read, unread := total - read }

/-! ### Specification-side definitions used in the theorem statements -/

/-- a book that passes the candidate filters of the grouping pass -/
def isSeriesCandidate (b : Book) : Bool :=
  !(b.title == "" || b.authors == "") &&
    (extractVolumeNumber b.title).volumeNumber.isSome

/-- the series identifier the grouping pass computes for a book -/
def bookSeriesId (b : Book) : String :=
  generateSeriesId (extractVolumeNumber b.title).normalizedTitle b.authors

/-- the volume entry the grouping pass pushes for a book -/
def mkVolumeEntry (b : Book) : VolumeEntry :=
  { book := b, volumeNumber := (extractVolumeNumber b.title).volumeNumber }

/-- the candidate books of one series, in input (first-seen) order -/
def seriesCandidates (books : List Book) (sid : String) : List Book :=
  books.filter (fun b => isSeriesCandidate b && (bookSeriesId b == sid))

/-- the volumes stored in the bucket of `seriesMap` keyed `sid` (empty when
the bucket is absent); used to reason about the grouping fold -/
def bucketVols (m : List (String × SeriesEntry)) (sid : String) :
    List VolumeEntry :=
  match m.find? (fun p => p.1 == sid) with
  | some p => p.2.volumes
  | none => []

/-- the order on volume entries asserted by the spec: non-decreasing volume
numbers, entries without a number after every numbered entry -/
def volLe (a b : VolumeEntry) : Prop :=
  match a.volumeNumber, b.volumeNumber with
  | some m, some n => m ≤ n
  | some _, none => True
  | none, o => o = none

/-! ### Concrete inputs used by examples and witnesses -/

def exBook1 : Book := ⟨"W1", "Alpha 1", "auth", ""⟩
def exBook2 : Book := ⟨"W2", "Alpha 2", "auth", "Read"⟩
def exB27 : Book := ⟨"B001", "シリーズ名 : 27 サブタイトル", "著者A", ""⟩
def exB28 : Book := ⟨"B002", "シリーズ名(28)サブタイトル2", "著者A", "read"⟩
def exTilde1 : Book := ⟨"T001", "~ 1", "著者B", ""⟩
def exTilde2 : Book := ⟨"T002", "~ 2", "著者B", ""⟩

/-- the run of `detectAndGroupSeries` on the two empty-id books of C10 -/
def exTildeRun : (List SeriesInfo × List (String × String)) × SeriesManager :=
  SeriesManager.init.detectAndGroupSeries [exTilde1, exTilde2]

/-- `headD` default used when instantiating universally quantified theorems
at concrete series lists -/
def dummySeriesInfo : SeriesInfo :=
  { seriesId := "", seriesName := "", authors := "", volumes := [],
    representativeBook := ⟨"", "", "", ""⟩, totalVolumes := 0 }

/-! ### Theorems -/

/-- C5: Volume extraction on the title "大長編タイトル8 副題 (レーベル)"
returns volume number 8 and series name "大長編タイトル"; neither special
prefix pattern nor any of the first ten patterns matches, and the
title-glued-number-then-subtitle-then-label rule (index 10) is the first
match. -/
theorem claim_C5_extract_glued_number :
    extractVolumeNumber "大長編タイトル8 副題 (レーベル)" =
      { volumeNumber := some 8, normalizedTitle := "大長編タイトル" } ∧
    regexMatch prefixVolumeRe
      (normalizeString "大長編タイトル8 副題 (レーベル)").data = none ∧
    regexMatch prefixRangeRe
      (normalizeString "大長編タイトル8 副題 (レーベル)").data = none ∧
    tryPatterns (volumePatterns.take 10)
      (normalizeString "大長編タイトル8 副題 (レーベル)").data = none ∧
    regexMatch (volumePatterns.getD 10 (reLit ' '))
      (normalizeString "大長編タイトル8 副題 (レーベル)").data =
      some { g1 := "大長編タイトル".data, g2 := "8".data } := by
  exact ⟨by decide, by decide, by decide, by decide, by decide⟩

/-- C6: the books titled "シリーズ名 : 27 サブタイトル" and
"シリーズ名(28)サブタイトル2" yield volume numbers 27 and 28, the same
series identifier, and are grouped into a single SeriesInfo holding both. -/
theorem claim_C6_colon_and_paren_group_together :
    (extractVolumeNumber exB27.title).volumeNumber = some 27 ∧
    (extractVolumeNumber exB28.title).volumeNumber = some 28 ∧
    generateSeriesId (extractVolumeNumber exB27.title).normalizedTitle
        exB27.authors =
      generateSeriesId (extractVolumeNumber exB28.title).normalizedTitle
        exB28.authors ∧
    (SeriesManager.init.detectAndGroupSeries [exB27, exB28]).1.1.map
        (fun s => s.volumes.map (fun v => (v.book.asin, v.volumeNumber))) =
      [[("B001", some 27), ("B002", some 28)]] := by
  exact ⟨by decide, by decide, by decide, by decide⟩

/-- C8: identifier normalization collapses case and the stripped
punctuation/space set: `normalizeForId "Title (1)" = normalizeForId "title1"`
(both equal `"title1"`). -/
theorem claim_C8_normalizeForId_collapses :
    normalizeForId "Title (1)" = normalizeForId "title1" ∧
    normalizeForId "Title (1)" = "title1" := by
  exact ⟨by decide, by decide⟩

/-- C10: two books titled "~ 1" and "~ 2" form a qualifying series whose
identifier is the empty string; both asins are mapped to `""` in the index,
yet `getSeriesByBookAsin` treats the empty-string id as falsy and returns
the not-found sentinel for them. -/
theorem claim_C10_empty_seriesId_lookup_miss :
    exTildeRun.1.1.map (fun s => s.seriesId) = [""] ∧
    exTildeRun.1.1.map (fun s => s.volumes.map (fun v => v.book.asin)) =
      [["T001", "T002"]] ∧
    exTildeRun.1.1.map (fun s => s.totalVolumes) = [2] ∧
    mapGet exTildeRun.1.2 "T001" = some "" ∧
    mapGet exTildeRun.1.2 "T002" = some "" ∧
    exTildeRun.2.getSeriesByBookAsin "T001" = none ∧
    exTildeRun.2.getSeriesByBookAsin "T002" = none := by
  exact ⟨by decide, by decide, by decide, by decide, by decide, by decide,
    by decide⟩

/-- C4 is refuted as stated: after a first call whose result held no series
(the cache stores a valid-but-empty result), a second call without any
invalidation re-scans its own argument and returns a different result, so
re-invocation is not memoized "for every input". -/
theorem claim_C4_counterexample :
    ¬ ((SeriesManager.init.detectAndGroupSeries []).2.detectAndGroupSeries
        [exBook1, exBook2]).1 =
      (SeriesManager.init.detectAndGroupSeries []).1 := by
  decide

/-- C4 (amended): when a detection call returned a non-empty series list,
every further call without invalidation returns exactly the cached result
and leaves the state unchanged, whatever its argument; and a call right
after `clearCache` always recomputes from its argument. -/
theorem claim_C4_memoization_amended (st st' : SeriesManager)
    (books1 books2 : List Book) (r : List SeriesInfo × List (String × String))
    (h : st.detectAndGroupSeries books1 = (r, st')) (hne : r.1 ≠ []) :
    st'.detectAndGroupSeries books2 = (r, st') ∧
    ((st.clearCache).detectAndGroupSeries books2).1 = detectCompute books2 := by
  constructor
  · unfold SeriesManager.detectAndGroupSeries at h ⊢
    split at h
    · rename_i hcond
      injection h with h1 h2
      subst h1
      subst h2
      rw [if_pos hcond]
    · injection h with h1 h2
      subst h1
      subst h2
      rw [if_pos ⟨rfl, List.length_pos.mpr hne⟩]
  · unfold SeriesManager.clearCache SeriesManager.detectAndGroupSeries
    rw [if_neg (by simp)]

/-- witness for C4 (amended) at a concrete run that produces one series -/
theorem claim_C4_memoization_amended_witness :
    (SeriesManager.init.detectAndGroupSeries [exBook1, exBook2]).2.detectAndGroupSeries [] =
      ((SeriesManager.init.detectAndGroupSeries [exBook1, exBook2]).1,
        (SeriesManager.init.detectAndGroupSeries [exBook1, exBook2]).2) ∧
    ((SeriesManager.init.clearCache).detectAndGroupSeries []).1 =
      detectCompute [] :=
  claim_C4_memoization_amended SeriesManager.init
    (SeriesManager.init.detectAndGroupSeries [exBook1, exBook2]).2
    [exBook1, exBook2] []
    (SeriesManager.init.detectAndGroupSeries [exBook1, exBook2]).1
    rfl (by decide)

/-- counting pass of `getSeriesProgress` as a filter length -/
theorem countRead_foldl (vols : List VolumeEntry) (n : Nat) :
    vols.foldl
      (fun r v =>
        if v.book.readStatus ≠ "" ∧ jsToLower v.book.readStatus = "read" then
          r + 1
        else r) n =
    n + (vols.filter (fun v => jsToLower v.book.readStatus == "read")).length := by
  induction vols generalizing n with
  | nil => simp
  | cons v vs ih =>
    simp only [List.foldl_cons, List.filter_cons]
    by_cases hc : jsToLower v.book.readStatus = "read"
    · have hne : v.book.readStatus ≠ "" := by
        intro h0
        rw [h0] at hc
        exact absurd hc (by decide)
      rw [if_pos ⟨hne, hc⟩, ih, if_pos (by simpa using hc)]
      simp only [List.length_cons]
      omega
    · rw [if_neg (fun h => hc h.2), ih, if_neg (by simpa using hc)]

/-- C9: progress computation returns `total` = volume count, `read` = count
of volumes whose read-status case-insensitively equals "read", and
`unread = total - read`; an absent series or one without a `volumes` field
yields the all-zero progress instead of an error. -/
theorem claim_C9_progress (series : Option ProgressArg) :
    (series = none → getSeriesProgress series = ⟨0, 0, 0⟩) ∧
    (series = some ⟨none⟩ → getSeriesProgress series = ⟨0, 0, 0⟩) ∧
    (∀ vols, series = some ⟨some vols⟩ →
      (getSeriesProgress series).total = vols.length ∧
      (getSeriesProgress series).read =
        (vols.filter (fun v => jsToLower v.book.readStatus == "read")).length ∧
      (getSeriesProgress series).read ≤ vols.length ∧
      (getSeriesProgress series).unread =
        vols.length - (getSeriesProgress series).read) := by
  refine ⟨?_, ?_, ?_⟩
  · rintro rfl
    rfl
  · rintro rfl
    rfl
  · rintro vols rfl
    have hread : (getSeriesProgress (some ⟨some vols⟩)).read =
        (vols.filter (fun v => jsToLower v.book.readStatus == "read")).length := by
      show vols.foldl _ 0 = _
      rw [countRead_foldl]
      omega
    refine ⟨rfl, hread, ?_, rfl⟩
    rw [hread]
    simpa using List.length_filter_le _ vols

/-- witness for C9 at a concrete two-volume series with one read volume -/
theorem claim_C9_progress_witness :
    (getSeriesProgress
      (some ⟨some [mkVolumeEntry exBook1, mkVolumeEntry exBook2]⟩)).total = 2 ∧
    (getSeriesProgress
      (some ⟨some [mkVolumeEntry exBook1, mkVolumeEntry exBook2]⟩)).read = 1 ∧
    (getSeriesProgress
      (some ⟨some [mkVolumeEntry exBook1, mkVolumeEntry exBook2]⟩)).unread = 1 := by
  have h := (claim_C9_progress
      (some ⟨some [mkVolumeEntry exBook1, mkVolumeEntry exBook2]⟩)).2.2
    [mkVolumeEntry exBook1, mkVolumeEntry exBook2] rfl
  obtain ⟨h1, h2, h3, h4⟩ := h
  refine ⟨h1, ?_, ?_⟩
  · rw [h2]
    decide
  · rw [h4, h2]
    decide

/-! ### Idempotence of `normalizeString` (C7) -/

/-- `Char.ofNat` round-trips on codepoints below the surrogate range. -/
theorem toNat_ofNat_valid {n : Nat} (h : n < 0xD800) : (Char.ofNat n).toNat = n := by
  rw [Char.ofNat, dif_pos (Or.inl h : n.isValidChar)]
  simp [Char.ofNatAux, Char.toNat, UInt32.toNat]

/-- `normChar` fixes every ASCII character. -/
theorem normChar_ascii {c : Char} (h : c.toNat < 0x80) : normChar c = c := by
  have hlit : ∀ d : Char, 0x80 ≤ d.toNat → ¬ c = d := by
    intro d hd he
    rw [he] at h
    omega
  unfold normChar
  rw [if_neg (by omega), if_neg (hlit _ (by decide)), if_neg (hlit _ (by decide)),
    if_neg (hlit _ (by decide)), if_neg (hlit _ (by decide)),
    if_neg (hlit _ (by decide)), if_neg (hlit _ (by decide)),
    if_neg (hlit _ (by decide)), if_neg (hlit _ (by decide)),
    if_neg (hlit _ (by decide)), if_neg (hlit _ (by decide)),
    if_neg (hlit _ (by decide)), if_neg (hlit _ (by decide)),
    if_neg (hlit _ (by decide)), if_neg (hlit _ (by decide)),
    if_neg (hlit _ (by decide)), if_neg (hlit _ (by decide)),
    if_neg (hlit _ (by decide)), if_neg (hlit _ (by decide)),
    if_neg (hlit _ (by decide)), if_neg (hlit _ (by decide)),
    if_neg (hlit _ (by decide)), if_neg (hlit _ (by decide)),
    if_neg (hlit _ (by decide))]

/-- every output of `normChar` is ASCII or the unchanged input -/
theorem normChar_lt_or_self (c : Char) :
    (normChar c).toNat < 0x80 ∨ normChar c = c := by
  by_cases h1 : (0xFF21 ≤ c.toNat ∧ c.toNat ≤ 0xFF3A) ∨
      (0xFF41 ≤ c.toNat ∧ c.toNat ≤ 0xFF5A) ∨
      (0xFF10 ≤ c.toNat ∧ c.toNat ≤ 0xFF19)
  · left
    unfold normChar
    rw [if_pos h1, toNat_ofNat_valid (by omega : c.toNat - 0xFEE0 < 0xD800)]
    omega
  by_cases h2 : c = '（'
  · subst h2; left; decide
  by_cases h3 : c = '）'
  · subst h3; left; decide
  by_cases h4 : c = '【'
  · subst h4; left; decide
  by_cases h5 : c = '】'
  · subst h5; left; decide
  by_cases h6 : c = '「'
  · subst h6; left; decide
  by_cases h7 : c = '」'
  · subst h7; left; decide
  by_cases h8 : c = '　'
  · subst h8; left; decide
  by_cases h9 : c = '：'
  · subst h9; left; decide
  by_cases h10 : c = '；'
  · subst h10; left; decide
  by_cases h11 : c = '－'
  · subst h11; left; decide
  by_cases h12 : c = '―'
  · subst h12; left; decide
  by_cases h13 : c = '─'
  · subst h13; left; decide
  by_cases h14 : c = 'ー'
  · subst h14; left; decide
  by_cases h15 : c = '−'
  · subst h15; left; decide
  by_cases h16 : c = '～'
  · subst h16; left; decide
  by_cases h17 : c = '〜'
  · subst h17; left; decide
  by_cases h18 : c = '！'
  · subst h18; left; decide
  by_cases h19 : c = '？'
  · subst h19; left; decide
  by_cases h20 : c = '＆'
  · subst h20; left; decide
  by_cases h21 : c = '＊'
  · subst h21; left; decide
  by_cases h22 : c = '＋'
  · subst h22; left; decide
  by_cases h23 : c = '，'
  · subst h23; left; decide
  by_cases h24 : c = '．'
  · subst h24; left; decide
  right
  unfold normChar
  rw [if_neg h1, if_neg h2, if_neg h3, if_neg h4, if_neg h5, if_neg h6,
    if_neg h7, if_neg h8, if_neg h9, if_neg h10, if_neg h11, if_neg h12,
    if_neg h13, if_neg h14, if_neg h15, if_neg h16, if_neg h17, if_neg h18,
    if_neg h19, if_neg h20, if_neg h21, if_neg h22, if_neg h23, if_neg h24]

theorem normChar_idem (c : Char) : normChar (normChar c) = normChar c := by
  rcases normChar_lt_or_self c with h | h
  · exact normChar_ascii h
  · rw [h]
    exact h

/-- every character of `collapseWs l` is the collapse space or a
non-whitespace character of `l` -/
theorem collapseWs_mem (c : Char) :
    ∀ {l : List Char}, c ∈ collapseWs l →
      c = ' ' ∨ (c ∈ l ∧ isJsWs c = false) := by
  intro l
  induction l with
  | nil => intro hc; simp [collapseWs] at hc
  | cons d rest ih =>
    intro hc
    cases rest with
    | nil =>
      by_cases hd : isJsWs d
      · simp [collapseWs, hd] at hc
        exact Or.inl hc
      · simp [collapseWs, hd] at hc
        subst hc
        exact Or.inr ⟨by simp, by simpa using hd⟩
    | cons e rest2 =>
      simp only [collapseWs] at hc
      split at hc
      · rcases ih hc with h | ⟨h1, h2⟩
        · exact Or.inl h
        · exact Or.inr ⟨List.mem_cons_of_mem _ h1, h2⟩
      · rcases List.mem_cons.mp hc with h1 | h1
        · by_cases hd : isJsWs d
          · rw [if_pos hd] at h1
            exact Or.inl h1
          · rw [if_neg hd] at h1
            subst h1
            exact Or.inr ⟨by simp, by simpa using hd⟩
        · rcases ih h1 with h | ⟨h2, h3⟩
          · exact Or.inl h
          · exact Or.inr ⟨List.mem_cons_of_mem _ h2, h3⟩

/-- a non-whitespace head passes through `collapseWs` unchanged -/
theorem collapseWs_head_cons (d : Char) (rest : List Char)
    (hd : isJsWs d = false) : (collapseWs (d :: rest)).head? = some d := by
  cases rest with
  | nil => simp [collapseWs, hd]
  | cons e rest2 => simp [collapseWs, hd]

/-- `collapseWs` leaves no two adjacent whitespace characters -/
theorem collapseWs_chain' (l : List Char) :
    (collapseWs l).Chain' (fun a b => ¬(isJsWs a = true ∧ isJsWs b = true)) := by
  induction l with
  | nil => simp [collapseWs]
  | cons d rest ih =>
    cases rest with
    | nil => by_cases hd : isJsWs d <;> simp [collapseWs, hd]
    | cons e rest2 =>
      simp only [collapseWs]
      split
      · exact ih
      · rename_i hde
        rw [List.chain'_cons']
        refine ⟨?_, ih⟩
        intro y hy
        by_cases hd : isJsWs d
        · have he : isJsWs e = false := by
            revert hde
            simp [hd]
          rw [collapseWs_head_cons e rest2 he] at hy
          have hye : e = y := by simpa using hy
          subst hye
          intro hcontra
          rw [he] at hcontra
          exact absurd hcontra.2 (by simp)
        · rw [if_neg hd]
          intro hcontra
          rw [Bool.not_eq_true] at hd
          rw [hd] at hcontra
          exact absurd hcontra.1 (by simp)

/-- a list whose whitespace is single spaces with no two adjacent is a fixed
point of `collapseWs` -/
theorem collapseWs_eq_self :
    ∀ (l : List Char), (∀ c ∈ l, isJsWs c = true → c = ' ') →
      l.Chain' (fun a b => ¬(isJsWs a = true ∧ isJsWs b = true)) →
      collapseWs l = l := by
  intro l
  induction l with
  | nil => intro _ _; rfl
  | cons d rest ih =>
    intro h1 h2
    cases rest with
    | nil =>
      by_cases hd : isJsWs d
      · have hds := h1 d (by simp) hd
        simp [collapseWs, hd, hds]
      · simp [collapseWs, hd]
    | cons e rest2 =>
      have hde : ¬(isJsWs d = true ∧ isJsWs e = true) := (List.chain'_cons.mp h2).1
      simp only [collapseWs]
      rw [if_neg (by simpa [Bool.and_eq_true] using hde)]
      congr 1
      · by_cases hd : isJsWs d
        · rw [if_pos hd, h1 d (by simp) hd]
        · rw [if_neg hd]
      · exact ih (fun c hc hw => h1 c (List.mem_cons_of_mem _ hc) hw)
          (List.chain'_cons.mp h2).2

/-- `dropWhile` is the identity when the head fails the predicate -/
theorem dropWhile_eq_self_of_head {p : Char → Bool} {l : List Char}
    (h : ∀ c, l.head? = some c → p c = false) : l.dropWhile p = l := by
  cases l with
  | nil => rfl
  | cons c rest => rw [List.dropWhile_cons, if_neg (by simp [h c rfl])]

theorem dropWhile_idem (p : Char → Bool) (l : List Char) :
    (l.dropWhile p).dropWhile p = l.dropWhile p := by
  apply dropWhile_eq_self_of_head
  intro c hc
  have h := List.head?_dropWhile_not p l
  rw [hc] at h
  exact h

theorem dropTrailing_idem (p : Char → Bool) (l : List Char) :
    dropTrailing p (dropTrailing p l) = dropTrailing p l := by
  unfold dropTrailing
  rw [List.reverse_reverse, dropWhile_idem]

/-- a nonempty prefix shares the head -/
theorem prefix_head? {l m : List Char} (h : l <+: m) (hne : l ≠ []) :
    l.head? = m.head? := by
  obtain ⟨r, rfl⟩ := h
  cases l with
  | nil => exact absurd rfl hne
  | cons c rest => rfl

theorem prefix_dropTrailing (p : Char → Bool) (l : List Char) :
    dropTrailing p l <+: l := by
  unfold dropTrailing
  have h := List.dropWhile_suffix (l := l.reverse) p
  have h2 := List.reverse_prefix.mpr h
  simpa using h2

theorem infix_trimList (l : List Char) : trimList l <:+: l := by
  unfold trimList
  exact List.IsInfix.trans (List.IsPrefix.isInfix (prefix_dropTrailing _ _))
    (List.IsSuffix.isInfix (List.dropWhile_suffix _))

theorem trimList_idem (l : List Char) : trimList (trimList l) = trimList l := by
  unfold trimList
  have h1 : (dropTrailing isJsWs (l.dropWhile isJsWs)).dropWhile isJsWs
      = dropTrailing isJsWs (l.dropWhile isJsWs) := by
    apply dropWhile_eq_self_of_head
    intro c hc
    have hpre := prefix_dropTrailing isJsWs (l.dropWhile isJsWs)
    have hne : dropTrailing isJsWs (l.dropWhile isJsWs) ≠ [] := by
      intro h0
      rw [h0] at hc
      exact absurd hc (by simp)
    rw [prefix_head? hpre hne] at hc
    have h := List.head?_dropWhile_not isJsWs l
    rw [hc] at h
    exact h
  rw [h1, dropTrailing_idem]

/-- the full normalization body is idempotent -/
theorem normListFull_idem (l : List Char) :
    normListFull (normListFull l) = normListFull l := by
  have hsub : ∀ c ∈ normListFull l, c ∈ collapseWs (l.map normChar) := by
    intro c hc
    exact List.IsInfix.subset (infix_trimList (collapseWs (l.map normChar))) hc
  have hmem : ∀ c ∈ normListFull l,
      normChar c = c ∧ (isJsWs c = true → c = ' ') := by
    intro c hc
    rcases collapseWs_mem c (hsub c hc) with h | ⟨h1, h2⟩
    · subst h
      exact ⟨by decide, fun _ => rfl⟩
    · rcases List.mem_map.mp h1 with ⟨a, _, rfl⟩
      exact ⟨normChar_idem a, fun hw => absurd hw (by simp [h2])⟩
  have hmap : (normListFull l).map normChar = normListFull l := by
    calc (normListFull l).map normChar
        = (normListFull l).map id :=
          List.map_congr_left (fun c hc => (hmem c hc).1)
      _ = normListFull l := List.map_id _
  have hchain : (normListFull l).Chain'
      (fun a b => ¬(isJsWs a = true ∧ isJsWs b = true)) :=
    List.Chain'.infix (collapseWs_chain' (l.map normChar)) (infix_trimList _)
  show trimList (collapseWs ((normListFull l).map normChar)) = normListFull l
  rw [hmap,
    collapseWs_eq_self _ (fun c hc hw => (hmem c hc).2 hw) hchain]
  exact trimList_idem _

/-- C7: display normalization is idempotent:
`normalize(normalize(s)) == normalize(s)` for every string. -/
theorem claim_C7_normalize_idempotent (s : String) :
    normalizeString (normalizeString s) = normalizeString s := by
  by_cases h : s = ""
  · subst h
    rfl
  · have hs : normalizeString s = String.mk (normListFull s.data) := by
      rw [normalizeString, if_neg h]
    rw [hs]
    by_cases h2 : String.mk (normListFull s.data) = ""
    · rw [normalizeString, if_pos h2]
      exact h2.symm
    · rw [normalizeString, if_neg h2]
      have hd : (String.mk (normListFull s.data)).data = normListFull s.data := rfl
      rw [hd, normListFull_idem]

/-! ### The volume sort: permutation, sortedness, stability -/

theorem jsInsertVolume_perm (v : VolumeEntry) (l : List VolumeEntry) :
    (jsInsertVolume v l).Perm (v :: l) := by
  induction l with
  | nil => exact List.Perm.refl _
  | cons w ws ih =>
    simp only [jsInsertVolume]
    by_cases hc : seriesVolumeCmp v w ≤ 0
    · rw [if_pos hc]
    · rw [if_neg hc]
      exact (ih.cons w).trans (List.Perm.swap v w ws)

theorem jsSortVolumes_perm (l : List VolumeEntry) :
    (jsSortVolumes l).Perm l := by
  induction l with
  | nil => exact List.Perm.refl _
  | cons v vs ih =>
    have : jsSortVolumes (v :: vs) = jsInsertVolume v (jsSortVolumes vs) := rfl
    rw [this]
    exact (jsInsertVolume_perm v _).trans (ih.cons v)

theorem jsSortVolumes_length (l : List VolumeEntry) :
    (jsSortVolumes l).length = l.length :=
  (jsSortVolumes_perm l).length_eq

theorem volLe_of_cmp {v w : VolumeEntry} (h : seriesVolumeCmp v w ≤ 0) :
    volLe v w := by
  obtain ⟨vb, vn⟩ := v
  obtain ⟨wb, wn⟩ := w
  cases vn <;> cases wn <;>
    simp only [seriesVolumeCmp, volLe] at h ⊢ <;>
    first | trivial | omega

theorem volLe_of_not_cmp {v w : VolumeEntry} (h : ¬ seriesVolumeCmp v w ≤ 0) :
    volLe w v := by
  obtain ⟨vb, vn⟩ := v
  obtain ⟨wb, wn⟩ := w
  cases vn <;> cases wn <;>
    simp only [seriesVolumeCmp, volLe] at h ⊢ <;>
    first | trivial | omega

theorem volLe_trans {a b c : VolumeEntry} (h1 : volLe a b) (h2 : volLe b c) :
    volLe a c := by
  obtain ⟨ab, an⟩ := a
  obtain ⟨bb, bn⟩ := b
  obtain ⟨cb, cn⟩ := c
  cases an <;> cases bn <;> cases cn <;>
    simp only [volLe] at h1 h2 ⊢ <;>
    first | trivial | omega | exact absurd h1 (by simp) | exact absurd h2 (by simp)

theorem pairwise_jsInsertVolume (v : VolumeEntry) (l : List VolumeEntry)
    (h : l.Pairwise volLe) : (jsInsertVolume v l).Pairwise volLe := by
  induction l with
  | nil => simp [jsInsertVolume]
  | cons w ws ih =>
    simp only [jsInsertVolume]
    by_cases hc : seriesVolumeCmp v w ≤ 0
    · rw [if_pos hc]
      refine List.Pairwise.cons ?_ h
      intro u hu
      rcases List.mem_cons.mp hu with rfl | hu'
      · exact volLe_of_cmp hc
      · exact volLe_trans (volLe_of_cmp hc) (List.rel_of_pairwise_cons h hu')
    · rw [if_neg hc]
      refine List.Pairwise.cons ?_ (ih (List.pairwise_cons.mp h).2)
      intro u hu
      have hu2 : u ∈ v :: ws := (jsInsertVolume_perm v ws).mem_iff.mp hu
      rcases List.mem_cons.mp hu2 with rfl | hu'
      · exact volLe_of_not_cmp hc
      · exact List.rel_of_pairwise_cons h hu'

theorem pairwise_jsSortVolumes (l : List VolumeEntry) :
    (jsSortVolumes l).Pairwise volLe := by
  induction l with
  | nil => simp [jsSortVolumes]
  | cons v vs ih =>
    have : jsSortVolumes (v :: vs) = jsInsertVolume v (jsSortVolumes vs) := rfl
    rw [this]
    exact pairwise_jsInsertVolume v _ ih

theorem seriesVolumeCmp_some_some {v w : VolumeEntry} {m n : Nat}
    (hv : v.volumeNumber = some m) (hw : w.volumeNumber = some n) :
    seriesVolumeCmp v w = (m : Int) - n := by
  obtain ⟨vb, vn⟩ := v
  obtain ⟨wb, wn⟩ := w
  cases vn <;> cases wn <;> simp_all [seriesVolumeCmp]

theorem filter_jsInsertVolume_pos {v : VolumeEntry} {n : Nat}
    (hv : v.volumeNumber = some n) (l : List VolumeEntry) :
    (jsInsertVolume v l).filter (fun w => w.volumeNumber == some n) =
      v :: l.filter (fun w => w.volumeNumber == some n) := by
  induction l with
  | nil => simp [jsInsertVolume, hv]
  | cons w ws ih =>
    simp only [jsInsertVolume]
    by_cases hc : seriesVolumeCmp v w ≤ 0
    · rw [if_pos hc, List.filter_cons, if_pos (by simp [hv])]
    · rw [if_neg hc]
      have hw : ¬ w.volumeNumber = some n := by
        intro hwn
        apply hc
        rw [seriesVolumeCmp_some_some hv hwn]
        omega
      rw [List.filter_cons, if_neg (by simp [hw]), ih,
        List.filter_cons, if_neg (by simp [hw])]

theorem filter_jsInsertVolume_neg {v : VolumeEntry} {n : Nat}
    (hv : ¬ v.volumeNumber = some n) (l : List VolumeEntry) :
    (jsInsertVolume v l).filter (fun w => w.volumeNumber == some n) =
      l.filter (fun w => w.volumeNumber == some n) := by
  induction l with
  | nil => simp [jsInsertVolume, hv]
  | cons w ws ih =>
    simp only [jsInsertVolume]
    by_cases hc : seriesVolumeCmp v w ≤ 0
    · rw [if_pos hc, List.filter_cons, if_neg (by simp [hv])]
    · rw [if_neg hc, List.filter_cons, ih, List.filter_cons]

/-- stability of the volume sort: the subsequence of entries with any fixed
volume number is unchanged by sorting -/
theorem filter_jsSortVolumes (l : List VolumeEntry) (n : Nat) :
    (jsSortVolumes l).filter (fun w => w.volumeNumber == some n) =
      l.filter (fun w => w.volumeNumber == some n) := by
  induction l with
  | nil => rfl
  | cons v vs ih =>
    have hs : jsSortVolumes (v :: vs) = jsInsertVolume v (jsSortVolumes vs) := rfl
    rw [hs]
    by_cases hv : v.volumeNumber = some n
    · rw [filter_jsInsertVolume_pos hv, ih, List.filter_cons, if_pos (by simp [hv])]
    · rw [filter_jsInsertVolume_neg hv, ih, List.filter_cons, if_neg (by simp [hv])]

/-! ### Shape of `buildResult` and of a fresh detection call -/

theorem buildResult_foldl_spec (m : List (String × SeriesEntry)) :
    ∀ acc : List SeriesInfo × List (String × String),
      m.foldl
        (fun acc p =>
          if 2 ≤ p.2.volumes.length then
            let info := mkSeriesInfo p
            (acc.1 ++ [info],
             info.volumes.foldl (fun mm v => mapSet mm v.book.asin info.seriesId)
               acc.2)
          else acc) acc =
      (acc.1 ++ (m.filter (fun p => 2 ≤ p.2.volumes.length)).map mkSeriesInfo,
        (((m.filter (fun p => 2 ≤ p.2.volumes.length)).map mkSeriesInfo).flatMap
            (fun info => info.volumes.map (fun v => (v.book.asin, info.seriesId)))).foldl
          (fun mm pr => mapSet mm pr.1 pr.2) acc.2) := by
  induction m with
  | nil => intro acc; simp
  | cons p ps ih =>
    intro acc
    rw [List.foldl_cons, List.filter_cons]
    by_cases hp : 2 ≤ p.2.volumes.length
    · rw [if_pos hp, if_pos (by simpa using hp), ih]
      simp only [List.map_cons, List.flatMap_cons, List.foldl_append,
        List.foldl_map, List.append_assoc, List.singleton_append]
    · rw [if_neg hp, if_neg (by simpa using hp), ih]

theorem buildResult_fst (m : List (String × SeriesEntry)) :
    (buildResult m).1 =
      (m.filter (fun p => 2 ≤ p.2.volumes.length)).map mkSeriesInfo := by
  unfold buildResult
  rw [buildResult_foldl_spec]
  simp

theorem buildResult_snd (m : List (String × SeriesEntry)) :
    (buildResult m).2 =
      (((m.filter (fun p => 2 ≤ p.2.volumes.length)).map mkSeriesInfo).flatMap
          (fun info => info.volumes.map (fun v => (v.book.asin, info.seriesId)))).foldl
        (fun mm pr => mapSet mm pr.1 pr.2) [] := by
  unfold buildResult
  rw [buildResult_foldl_spec]

/-- a detection call on the constructor state takes the recomputation path -/
theorem detect_init_eq (books : List Book) :
    SeriesManager.init.detectAndGroupSeries books =
      (detectCompute books,
        { seriesGroups := (detectCompute books).1,
          bookToSeriesMap := (detectCompute books).2, cacheValid := true }) := by
  unfold SeriesManager.detectAndGroupSeries
  rw [if_neg (by simp [SeriesManager.init])]

/-- C1: every SeriesInfo emitted by a fresh `detectAndGroupSeries` run
satisfies `totalVolumes = volumes.length` and `totalVolumes ≥ 2`. -/
theorem claim_C1_totalVolumes_invariant (books : List Book) (s : SeriesInfo)
    (h : s ∈ (SeriesManager.init.detectAndGroupSeries books).1.1) :
    s.totalVolumes = s.volumes.length ∧ 2 ≤ s.totalVolumes := by
  rw [detect_init_eq] at h
  have hgroups : (detectCompute books).1 =
      ((books.foldl detectStep []).filter
        (fun p => 2 ≤ p.2.volumes.length)).map mkSeriesInfo := by
    unfold detectCompute
    exact buildResult_fst _
  rw [hgroups] at h
  obtain ⟨p, hp, rfl⟩ := List.mem_map.mp h
  have hlen : 2 ≤ p.2.volumes.length := by
    simpa using (List.mem_filter.mp hp).2
  constructor
  · rfl
  · show 2 ≤ (jsSortVolumes p.2.volumes).length
    rw [jsSortVolumes_length]
    exact hlen

/-- witness for C1 at a concrete two-book series -/
theorem claim_C1_totalVolumes_invariant_witness :
    ((SeriesManager.init.detectAndGroupSeries [exBook1, exBook2]).1.1.headD
        dummySeriesInfo).totalVolumes =
      ((SeriesManager.init.detectAndGroupSeries [exBook1, exBook2]).1.1.headD
        dummySeriesInfo).volumes.length ∧
    2 ≤ ((SeriesManager.init.detectAndGroupSeries [exBook1, exBook2]).1.1.headD
        dummySeriesInfo).totalVolumes :=
  claim_C1_totalVolumes_invariant [exBook1, exBook2] _ (by decide)

/-! ### Contents of the grouping buckets -/

theorem bucketVols_cons_pos (p : String × SeriesEntry)
    (ps : List (String × SeriesEntry)) {sid : String}
    (h : (p.1 == sid) = true) : bucketVols (p :: ps) sid = p.2.volumes := by
  unfold bucketVols
  rw [List.find?_cons_of_pos (p := fun q : String × SeriesEntry => q.1 == sid) _ h]

theorem bucketVols_cons_neg (p : String × SeriesEntry)
    (ps : List (String × SeriesEntry)) {sid : String}
    (h : ¬ (p.1 == sid) = true) : bucketVols (p :: ps) sid = bucketVols ps sid := by
  unfold bucketVols
  rw [List.find?_cons_of_neg (p := fun q : String × SeriesEntry => q.1 == sid) _ h]

theorem bucketVols_of_not_has {m : List (String × SeriesEntry)} {sid : String}
    (h : smHasKey m sid = false) : bucketVols m sid = [] := by
  unfold bucketVols
  have hf : m.find? (fun p => p.1 == sid) = none := by
    rw [List.find?_eq_none]
    simp only [smHasKey, List.any_eq_false] at h
    exact h
  rw [hf]

theorem bucketVols_smPush_self {m : List (String × SeriesEntry)} {sid : String}
    (v : VolumeEntry) (h : smHasKey m sid = true) :
    bucketVols (smPush m sid v) sid = bucketVols m sid ++ [v] := by
  induction m with
  | nil => simp [smHasKey] at h
  | cons p ps ih =>
    have hpush : smPush (p :: ps) sid v =
        (if (p.1 == sid) = true then
          (p.1, { p.2 with volumes := p.2.volumes ++ [v] }) else p) ::
          smPush ps sid v := rfl
    by_cases hp : (p.1 == sid) = true
    · rw [hpush, if_pos hp,
        bucketVols_cons_pos (p.1, { p.2 with volumes := p.2.volumes ++ [v] })
          (smPush ps sid v) hp,
        bucketVols_cons_pos p ps hp]
    · have h' : smHasKey ps sid = true := by
        simp only [smHasKey, List.any_cons] at h
        rcases Bool.or_eq_true_iff.mp h with h1 | h1
        · exact absurd h1 hp
        · exact h1
      rw [hpush, if_neg hp, bucketVols_cons_neg _ _ hp, bucketVols_cons_neg p ps hp]
      exact ih h'

theorem bucketVols_smPush_other {m : List (String × SeriesEntry)}
    {sid sid' : String} (v : VolumeEntry) (h : ¬ sid' = sid) :
    bucketVols (smPush m sid v) sid' = bucketVols m sid' := by
  induction m with
  | nil => rfl
  | cons p ps ih =>
    have hpush : smPush (p :: ps) sid v =
        (if (p.1 == sid) = true then
          (p.1, { p.2 with volumes := p.2.volumes ++ [v] }) else p) ::
          smPush ps sid v := rfl
    by_cases hp : (p.1 == sid) = true
    · have hp' : ¬ (p.1 == sid') = true := by
        simp only [beq_iff_eq] at hp ⊢
        rw [hp]
        exact fun he => h he.symm
      rw [hpush, if_pos hp,
        bucketVols_cons_neg (p.1, { p.2 with volumes := p.2.volumes ++ [v] })
          (smPush ps sid v) hp',
        bucketVols_cons_neg p ps hp']
      exact ih
    · rw [hpush, if_neg hp]
      by_cases hp2 : (p.1 == sid') = true
      · rw [bucketVols_cons_pos p _ hp2, bucketVols_cons_pos p ps hp2]
      · rw [bucketVols_cons_neg p _ hp2, bucketVols_cons_neg p ps hp2]
        exact ih

theorem smHasKey_append_self (m : List (String × SeriesEntry)) (sid : String)
    (e : SeriesEntry) : smHasKey (m ++ [(sid, e)]) sid = true := by
  simp [smHasKey]

theorem bucketVols_append_self {m : List (String × SeriesEntry)} {sid : String}
    (e : SeriesEntry) (h : smHasKey m sid = false) :
    bucketVols (m ++ [(sid, e)]) sid = e.volumes := by
  induction m with
  | nil => simp [bucketVols]
  | cons p ps ih =>
    have h' := h
    simp only [smHasKey, List.any_cons, Bool.or_eq_false_iff] at h'
    obtain ⟨h1, h2⟩ := h'
    have hp : ¬ (p.1 == sid) = true := by simp [h1]
    rw [List.cons_append, bucketVols_cons_neg p _ hp]
    exact ih (by simpa [smHasKey] using h2)

theorem bucketVols_append_other {m : List (String × SeriesEntry)}
    {sid sid' : String} (e : SeriesEntry) (h : ¬ sid' = sid) :
    bucketVols (m ++ [(sid, e)]) sid' = bucketVols m sid' := by
  induction m with
  | nil =>
    have : ¬ ((sid, e).1 == sid') = true := by
      simp only [beq_iff_eq]
      exact fun he => h he.symm
    simp [bucketVols, this]
  | cons p ps ih =>
    rw [List.cons_append]
    by_cases hp : (p.1 == sid') = true
    · rw [bucketVols_cons_pos p _ hp, bucketVols_cons_pos p ps hp]
    · rw [bucketVols_cons_neg p _ hp, bucketVols_cons_neg p ps hp]
      exact ih

/-- one step of the grouping fold appends the book's volume entry to the
bucket of its series identifier exactly when the book is a candidate -/
theorem bucketVols_detectStep (m : List (String × SeriesEntry)) (b : Book)
    (sid : String) :
    bucketVols (detectStep m b) sid = bucketVols m sid ++
      (if isSeriesCandidate b = true ∧ bookSeriesId b = sid
        then [mkVolumeEntry b] else []) := by
  by_cases h1 : (b.title == "" || b.authors == "") = true
  · have hcand : isSeriesCandidate b = false := by
      simp [isSeriesCandidate, h1]
    have hstep : detectStep m b = m := by
      unfold detectStep
      rw [if_pos h1]
    rw [hstep, if_neg (by simp [hcand])]
    simp
  · have h1f : (b.title == "" || b.authors == "") = false := by simpa using h1
    cases hvn : (extractVolumeNumber b.title).volumeNumber with
    | none =>
      have hstep : detectStep m b = m := by
        unfold detectStep
        rw [if_neg h1]
        simp only [hvn]
      have hcand : isSeriesCandidate b = false := by
        simp [isSeriesCandidate, hvn]
      rw [hstep, if_neg (by simp [hcand])]
      simp
    | some k =>
      have hcand : isSeriesCandidate b = true := by
        simp [isSeriesCandidate, h1f, hvn]
      have hmk : mkVolumeEntry b = { book := b, volumeNumber := some k } := by
        unfold mkVolumeEntry
        rw [hvn]
      have hstep : detectStep m b =
          smPush
            (if smHasKey m (bookSeriesId b) then m
              else m ++ [(bookSeriesId b,
                { seriesId := bookSeriesId b,
                  seriesName := (extractVolumeNumber b.title).normalizedTitle,
                  authors := b.authors, volumes := [] })])
            (bookSeriesId b) { book := b, volumeNumber := some k } := by
        unfold detectStep bookSeriesId
        rw [if_neg h1]
        simp only [hvn]
      by_cases hsid : bookSeriesId b = sid
      · subst hsid
        by_cases hhas : smHasKey m (bookSeriesId b) = true
        · rw [hstep, if_pos hhas, bucketVols_smPush_self _ hhas,
            if_pos ⟨hcand, rfl⟩, hmk]
        · have hhasf : smHasKey m (bookSeriesId b) = false := by simpa using hhas
          rw [hstep, if_neg (by simp [hhasf]),
            bucketVols_smPush_self _ (smHasKey_append_self m _ _),
            bucketVols_append_self _ hhasf, bucketVols_of_not_has hhasf,
            if_pos ⟨hcand, rfl⟩, hmk]
      · have hsid' : ¬ sid = bookSeriesId b := fun he => hsid he.symm
        by_cases hhas : smHasKey m (bookSeriesId b) = true
        · rw [hstep, if_pos hhas, bucketVols_smPush_other _ hsid',
            if_neg (fun hc => hsid hc.2)]
          simp
        · rw [hstep, if_neg hhas, bucketVols_smPush_other _ hsid',
            bucketVols_append_other _ hsid', if_neg (fun hc => hsid hc.2)]
          simp

/-- the grouping fold fills each bucket with exactly the candidate books of
its series identifier, in input order -/
theorem bucketVols_foldl (books : List Book) :
    ∀ (m : List (String × SeriesEntry)) (sid : String),
      bucketVols (books.foldl detectStep m) sid =
        bucketVols m sid ++ (seriesCandidates books sid).map mkVolumeEntry := by
  induction books with
  | nil => intro m sid; simp [seriesCandidates]
  | cons b bs ih =>
    intro m sid
    rw [List.foldl_cons, ih, bucketVols_detectStep]
    unfold seriesCandidates
    rw [List.filter_cons]
    by_cases hb : isSeriesCandidate b = true ∧ bookSeriesId b = sid
    · rw [if_pos hb, if_pos (by simp [hb.1, hb.2])]
      simp [seriesCandidates, List.append_assoc]
    · rw [if_neg hb, if_neg (by
        intro hc
        rcases Bool.and_eq_true_iff.mp hc with ⟨hc1, hc2⟩
        exact hb ⟨hc1, by simpa using hc2⟩)]
      simp [seriesCandidates]

/-! ### Keys of the series map -/

theorem keys_smPush (m : List (String × SeriesEntry)) (sid : String)
    (v : VolumeEntry) : (smPush m sid v).map Prod.fst = m.map Prod.fst := by
  unfold smPush
  rw [List.map_map]
  apply List.map_congr_left
  intro p _
  by_cases h : p.1 = sid <;> simp [h]

theorem keys_detectStep (m : List (String × SeriesEntry)) (b : Book) :
    (detectStep m b).map Prod.fst = m.map Prod.fst ∨
      ((detectStep m b).map Prod.fst = m.map Prod.fst ++ [bookSeriesId b] ∧
        smHasKey m (bookSeriesId b) = false) := by
  by_cases h1 : (b.title == "" || b.authors == "") = true
  · left
    have hstep : detectStep m b = m := by
      unfold detectStep
      rw [if_pos h1]
    rw [hstep]
  · cases hvn : (extractVolumeNumber b.title).volumeNumber with
    | none =>
      left
      have hstep : detectStep m b = m := by
        unfold detectStep
        rw [if_neg h1]
        simp only [hvn]
      rw [hstep]
    | some k =>
      have hstep : detectStep m b =
          smPush
            (if smHasKey m (bookSeriesId b) then m
              else m ++ [(bookSeriesId b,
                { seriesId := bookSeriesId b,
                  seriesName := (extractVolumeNumber b.title).normalizedTitle,
                  authors := b.authors, volumes := [] })])
            (bookSeriesId b) { book := b, volumeNumber := some k } := by
        unfold detectStep bookSeriesId
        rw [if_neg h1]
        simp only [hvn]
      by_cases hhas : smHasKey m (bookSeriesId b) = true
      · left
        rw [hstep, if_pos hhas, keys_smPush]
      · right
        have hhasf : smHasKey m (bookSeriesId b) = false := by simpa using hhas
        refine ⟨?_, hhasf⟩
        rw [hstep, if_neg hhas, keys_smPush]
        simp

theorem nodup_keys_detectStep (m : List (String × SeriesEntry)) (b : Book)
    (h : (m.map Prod.fst).Nodup) : ((detectStep m b).map Prod.fst).Nodup := by
  rcases keys_detectStep m b with h1 | ⟨h1, h2⟩
  · rw [h1]
    exact h
  · rw [h1]
    have hnmem : bookSeriesId b ∉ m.map Prod.fst := by
      intro hmem
      rcases List.mem_map.mp hmem with ⟨p, hp, hkey⟩
      simp only [smHasKey, List.any_eq_false] at h2
      exact (h2 p hp) (beq_iff_eq.mpr hkey)
    rw [List.nodup_append]
    exact ⟨h, List.nodup_singleton _, by simpa using hnmem⟩

theorem nodup_keys_foldl (books : List Book) :
    ∀ m : List (String × SeriesEntry), (m.map Prod.fst).Nodup →
      (((books.foldl detectStep m)).map Prod.fst).Nodup := by
  induction books with
  | nil => intro m h; exact h
  | cons b bs ih =>
    intro m h
    rw [List.foldl_cons]
    exact ih _ (nodup_keys_detectStep m b h)

/-- with nodup keys, `find?` by the key of a member returns that member -/
theorem find?_key_of_mem {β : Type} {m : List (String × β)}
    (h : (m.map Prod.fst).Nodup) {p : String × β} (hm : p ∈ m) :
    m.find? (fun q => q.1 == p.1) = some p := by
  induction m with
  | nil => cases hm
  | cons q ps ih =>
    rcases List.mem_cons.mp hm with rfl | hm'
    · exact List.find?_cons_of_pos _ (by simp)
    · have hq : ¬ (q.1 == p.1) = true := by
        simp only [beq_iff_eq]
        intro he
        rw [List.map_cons, List.nodup_cons] at h
        exact h.1 (he ▸ List.mem_map_of_mem Prod.fst hm')
      rw [List.find?_cons_of_neg (p := fun r : String × β => r.1 == p.1) _ hq]
      rw [List.map_cons, List.nodup_cons] at h
      exact ih h.2 hm'

/-- every bucket of the grouping fold holds exactly its candidates -/
theorem volumes_of_mem_seriesMap (books : List Book) (p : String × SeriesEntry)
    (hp : p ∈ books.foldl detectStep []) :
    p.2.volumes = (seriesCandidates books p.1).map mkVolumeEntry := by
  have hnd := nodup_keys_foldl books [] (by simp)
  have hfind := find?_key_of_mem hnd hp
  have hb := bucketVols_foldl books [] p.1
  rw [show bucketVols [] p.1 = [] from rfl, List.nil_append] at hb
  unfold bucketVols at hb
  rw [hfind] at hb
  exact hb

/-- C3: in every emitted SeriesInfo the volumes are sorted by `volLe`
(non-decreasing numbers, absent numbers last), entries with equal volume
numbers keep their first-seen input order, and the representative book is
the volume in position 0 of the sorted sequence. -/
theorem claim_C3_volumes_sorted_stable (books : List Book) (s : SeriesInfo)
    (h : s ∈ (SeriesManager.init.detectAndGroupSeries books).1.1) :
    s.volumes.Pairwise volLe ∧
    (∀ n : Nat, s.volumes.filter (fun v => v.volumeNumber == some n) =
      ((seriesCandidates books s.seriesId).map mkVolumeEntry).filter
        (fun v => v.volumeNumber == some n)) ∧
    s.volumes ≠ [] ∧
    s.representativeBook = (s.volumes.headD dummyVolume).book := by
  rw [detect_init_eq] at h
  have hgroups : (detectCompute books).1 =
      ((books.foldl detectStep []).filter
        (fun p => 2 ≤ p.2.volumes.length)).map mkSeriesInfo := by
    unfold detectCompute
    exact buildResult_fst _
  rw [hgroups] at h
  obtain ⟨p, hp, rfl⟩ := List.mem_map.mp h
  have hpmem : p ∈ books.foldl detectStep [] := (List.mem_filter.mp hp).1
  have hlen : 2 ≤ p.2.volumes.length := by
    simpa using (List.mem_filter.mp hp).2
  have hvols := volumes_of_mem_seriesMap books p hpmem
  refine ⟨pairwise_jsSortVolumes _, ?_, ?_, rfl⟩
  · intro n
    show (jsSortVolumes p.2.volumes).filter _ = _
    rw [filter_jsSortVolumes, hvols]
    rfl
  · show jsSortVolumes p.2.volumes ≠ []
    intro h0
    have := jsSortVolumes_length p.2.volumes
    rw [h0] at this
    simp at this
    omega

/-- witness for C3 at a concrete two-book series -/
theorem claim_C3_volumes_sorted_stable_witness :
    ((SeriesManager.init.detectAndGroupSeries [exBook1, exBook2]).1.1.headD
        dummySeriesInfo).volumes.Pairwise volLe ∧
    (((SeriesManager.init.detectAndGroupSeries [exBook1, exBook2]).1.1.headD
        dummySeriesInfo).volumes.filter (fun v => v.volumeNumber == some 1) =
      ((seriesCandidates [exBook1, exBook2]
          ((SeriesManager.init.detectAndGroupSeries [exBook1, exBook2]).1.1.headD
            dummySeriesInfo).seriesId).map mkVolumeEntry).filter
        (fun v => v.volumeNumber == some 1)) ∧
    ((SeriesManager.init.detectAndGroupSeries [exBook1, exBook2]).1.1.headD
        dummySeriesInfo).volumes ≠ [] ∧
    ((SeriesManager.init.detectAndGroupSeries [exBook1, exBook2]).1.1.headD
        dummySeriesInfo).representativeBook =
      (((SeriesManager.init.detectAndGroupSeries [exBook1, exBook2]).1.1.headD
        dummySeriesInfo).volumes.headD dummyVolume).book := by
  have h := claim_C3_volumes_sorted_stable [exBook1, exBook2]
    ((SeriesManager.init.detectAndGroupSeries [exBook1, exBook2]).1.1.headD
      dummySeriesInfo) (by decide)
  exact ⟨h.1, h.2.1 1, h.2.2.1, h.2.2.2⟩

/-! ### Index consistency (C2) -/

theorem sublist_flatMap_of_sublist {α β : Type} (f : α → List β)
    {l₁ l₂ : List α} (h : l₁.Sublist l₂) : (l₁.flatMap f).Sublist (l₂.flatMap f) := by
  induction h with
  | slnil => simp
  | cons a h2 ih =>
    rw [List.flatMap_cons]
    exact ih.trans (List.sublist_append_right _ _)
  | cons₂ a h2 ih =>
    rw [List.flatMap_cons, List.flatMap_cons]
    exact ih.append_left _

/-- distinct series identifiers have disjoint candidate lists, so with
pairwise distinct input asins the asins across all buckets are distinct -/
theorem nodup_candidates_flatMap (books : List Book)
    (h : (books.map Book.asin).Nodup) :
    ∀ ks : List String, ks.Nodup →
      (ks.flatMap (fun sid => (seriesCandidates books sid).map Book.asin)).Nodup := by
  intro ks
  induction ks with
  | nil => intro _; simp
  | cons k ks ih =>
    intro hnd
    rw [List.flatMap_cons, List.nodup_append]
    have hsub : ((seriesCandidates books k).map Book.asin).Sublist
        (books.map Book.asin) := (List.filter_sublist books).map _
    refine ⟨hsub.nodup h, ih (List.nodup_cons.mp hnd).2, ?_⟩
    intro a ha hb
    rcases List.mem_map.mp ha with ⟨b1, hb1, rfl⟩
    rcases List.mem_flatMap.mp hb with ⟨k', hk', hb'⟩
    rcases List.mem_map.mp hb' with ⟨b2, hb2, heq⟩
    have hb1' := List.mem_filter.mp hb1
    have hb2' := List.mem_filter.mp hb2
    have hk1 : bookSeriesId b1 = k := by
      have := hb1'.2
      rw [Bool.and_eq_true] at this
      simpa using this.2
    have hk2 : bookSeriesId b2 = k' := by
      have := hb2'.2
      rw [Bool.and_eq_true] at this
      simpa using this.2
    have hbeq : b2 = b1 := List.inj_on_of_nodup_map h hb2'.1 hb1'.1 heq
    rw [hbeq] at hk2
    rw [hk1] at hk2
    exact (List.nodup_cons.mp hnd).1 (hk2 ▸ hk')

/-- with pairwise distinct input asins, no asin appears twice across the
emitted series' volume lists -/
theorem nodup_group_asins (books : List Book)
    (h : (books.map Book.asin).Nodup) :
    ((((books.foldl detectStep []).filter
        (fun p => 2 ≤ p.2.volumes.length)).map mkSeriesInfo).flatMap
      (fun info => info.volumes.map (fun v => v.book.asin))).Nodup := by
  rw [List.flatMap_map]
  have hperm : List.Perm
      (((books.foldl detectStep []).filter
          (fun p => 2 ≤ p.2.volumes.length)).flatMap
        (fun p => (mkSeriesInfo p).volumes.map (fun v => v.book.asin)))
      (((books.foldl detectStep []).filter
          (fun p => 2 ≤ p.2.volumes.length)).flatMap
        (fun p => p.2.volumes.map (fun v => v.book.asin))) :=
    List.Perm.flatMap_left _
      (fun p _ => ((jsSortVolumes_perm p.2.volumes).map _))
  apply (hperm.nodup_iff).mpr
  have hcong : ((books.foldl detectStep []).filter
        (fun p => 2 ≤ p.2.volumes.length)).flatMap
      (fun p => p.2.volumes.map (fun v => v.book.asin)) =
    ((books.foldl detectStep []).filter
        (fun p => 2 ≤ p.2.volumes.length)).flatMap
      (fun p => (seriesCandidates books p.1).map Book.asin) := by
    apply List.flatMap_congr
    intro p hp
    rw [volumes_of_mem_seriesMap books p (List.mem_filter.mp hp).1,
      List.map_map]
    apply List.map_congr_left
    intro b _
    rfl
  rw [hcong]
  have hsub := sublist_flatMap_of_sublist
    (fun p => (seriesCandidates books p.1).map Book.asin)
    (List.filter_sublist (l := books.foldl detectStep [])
      (p := fun p => 2 ≤ p.2.volumes.length))
  apply hsub.nodup
  have hkeys : (books.foldl detectStep []).flatMap
      (fun p => (seriesCandidates books p.1).map Book.asin) =
    ((books.foldl detectStep []).map Prod.fst).flatMap
      (fun sid => (seriesCandidates books sid).map Book.asin) := by
    rw [List.flatMap_map]
  rw [hkeys]
  exact nodup_candidates_flatMap books h _ (nodup_keys_foldl books [] (by simp))

theorem mapSet_append_of_not_mem (mm : List (String × String)) (k v : String)
    (h : ∀ p ∈ mm, ¬ p.1 = k) : mapSet mm k v = mm ++ [(k, v)] := by
  unfold mapSet
  rw [if_neg (by
    intro hc
    rcases (by simpa using hc : ∃ p ∈ mm, p.1 = k) with ⟨p, hp, he⟩
    exact h p hp he)]

theorem foldl_mapSet_eq_append (pairs : List (String × String)) :
    ∀ acc : List (String × String),
      (acc.map Prod.fst ++ pairs.map Prod.fst).Nodup →
      pairs.foldl (fun mm pr => mapSet mm pr.1 pr.2) acc = acc ++ pairs := by
  induction pairs with
  | nil => intro acc _; simp
  | cons pr rest ih =>
    intro acc hnd
    have hkey : ∀ p ∈ acc, ¬ p.1 = pr.1 := by
      intro p hp he
      rw [List.nodup_append] at hnd
      refine hnd.2.2 (List.mem_map_of_mem Prod.fst hp) ?_
      rw [List.map_cons]
      exact he ▸ List.mem_cons_self _ _
    rw [List.foldl_cons, mapSet_append_of_not_mem _ _ _ hkey,
      ih (acc ++ [pr]) (by simpa using hnd)]
    simp

theorem mapGet_of_mem_nodup {pairs : List (String × String)}
    (h : (pairs.map Prod.fst).Nodup) {a sid : String}
    (hm : (a, sid) ∈ pairs) : mapGet pairs a = some sid := by
  have hf := find?_key_of_mem h hm
  unfold mapGet
  rw [show pairs.find? (fun p => p.1 == a) = some (a, sid) from hf]
  rfl

theorem mapGet_some_mem {pairs : List (String × String)} {a sid : String}
    (h : mapGet pairs a = some sid) : (a, sid) ∈ pairs := by
  unfold mapGet at h
  cases hfind : pairs.find? (fun p => p.1 == a) with
  | none => rw [hfind] at h; cases h
  | some p =>
    rw [hfind] at h
    have hp2 : p.2 = sid := by simpa using h
    have hpm := List.mem_of_find?_eq_some hfind
    have hp1 : p.1 = a := by simpa using List.find?_some hfind
    obtain ⟨x, y⟩ := p
    rw [show x = a from hp1, show y = sid from hp2] at hpm
    exact hpm

theorem mapGet_none_forall {pairs : List (String × String)} {a : String}
    (h : mapGet pairs a = none) : ∀ pr ∈ pairs, ¬ pr.1 = a := by
  unfold mapGet at h
  have hfind : pairs.find? (fun p => p.1 == a) = none := by
    cases hf : pairs.find? (fun p => p.1 == a) with
    | none => rfl
    | some p => rw [hf] at h; cases h
  rw [List.find?_eq_none] at hfind
  intro pr hpr he
  exact (hfind pr hpr) (beq_iff_eq.mpr he)

theorem eq_of_mem_flatMap_nodup {α β : Type} {l : List α} {f : α → List β}
    (h : (l.flatMap f).Nodup) {x : β} {b1 b2 : α} (hb1 : b1 ∈ l)
    (hb2 : b2 ∈ l) (hx1 : x ∈ f b1) (hx2 : x ∈ f b2) : b1 = b2 := by
  induction l with
  | nil => cases hb1
  | cons c cs ih =>
    rw [List.flatMap_cons, List.nodup_append] at h
    rcases List.mem_cons.mp hb1 with rfl | hb1' <;>
      rcases List.mem_cons.mp hb2 with rfl | hb2'
    · rfl
    · exact (h.2.2 hx1 (List.mem_flatMap_of_mem hb2' hx2)).elim
    · exact (h.2.2 hx2 (List.mem_flatMap_of_mem hb1' hx1)).elim
    · exact ih h.2.1 hb1' hb2'

/-- C2: with pairwise distinct book identifiers (the input contract), every
key of the book→series index belongs to exactly one emitted SeriesInfo's
volumes list, and the stored seriesId is that SeriesInfo's id; an identifier
mapped by no entry occurs in no SeriesInfo's volumes. -/
theorem claim_C2_index_exactly_one (books : List Book)
    (h : (books.map Book.asin).Nodup) (a : String) :
    (∀ sid, mapGet (SeriesManager.init.detectAndGroupSeries books).1.2 a = some sid →
      ∃ s, s ∈ (SeriesManager.init.detectAndGroupSeries books).1.1 ∧
        s.seriesId = sid ∧ a ∈ s.volumes.map (fun v => v.book.asin) ∧
        ∀ s', s' ∈ (SeriesManager.init.detectAndGroupSeries books).1.1 →
          a ∈ s'.volumes.map (fun v => v.book.asin) → s' = s) ∧
    (mapGet (SeriesManager.init.detectAndGroupSeries books).1.2 a = none →
      ∀ s ∈ (SeriesManager.init.detectAndGroupSeries books).1.1,
        a ∉ s.volumes.map (fun v => v.book.asin)) := by
  have hgroupsnd := nodup_group_asins books h
  have e1 : (SeriesManager.init.detectAndGroupSeries books).1.1 =
      (((books.foldl detectStep []).filter
        (fun p => 2 ≤ p.2.volumes.length)).map mkSeriesInfo) := by
    rw [detect_init_eq]
    exact buildResult_fst _
  have e2 : (SeriesManager.init.detectAndGroupSeries books).1.2 =
      ((((books.foldl detectStep []).filter
          (fun p => 2 ≤ p.2.volumes.length)).map mkSeriesInfo).flatMap
        (fun info => info.volumes.map (fun v => (v.book.asin, info.seriesId)))) := by
    rw [detect_init_eq]
    show (buildResult (books.foldl detectStep [])).2 = _
    rw [buildResult_snd]
    apply foldl_mapSet_eq_append
    simp only [List.map_nil, List.nil_append, List.map_flatMap, List.map_map]
    have hfun : (fun info : SeriesInfo =>
        info.volumes.map (Prod.fst ∘ fun v => (v.book.asin, info.seriesId))) =
        fun info : SeriesInfo => info.volumes.map (fun v => v.book.asin) := by
      funext info
      apply List.map_congr_left
      intro v _
      rfl
    rw [hfun]
    exact hgroupsnd
  have hkeysnd : (((((books.foldl detectStep []).filter
      (fun p => 2 ≤ p.2.volumes.length)).map mkSeriesInfo).flatMap
        (fun info => info.volumes.map (fun v => (v.book.asin, info.seriesId)))).map
      Prod.fst).Nodup := by
    simp only [List.map_flatMap, List.map_map]
    have hfun : (fun info : SeriesInfo =>
        info.volumes.map (Prod.fst ∘ fun v => (v.book.asin, info.seriesId))) =
        fun info : SeriesInfo => info.volumes.map (fun v => v.book.asin) := by
      funext info
      apply List.map_congr_left
      intro v _
      rfl
    rw [hfun]
    exact hgroupsnd
  rw [e1, e2]
  constructor
  · intro sid hsid
    have hmem := mapGet_some_mem hsid
    rcases List.mem_flatMap.mp hmem with ⟨info, hinfo, hpr⟩
    rcases List.mem_map.mp hpr with ⟨v, hv, hveq⟩
    injection hveq with h1 h2
    refine ⟨info, hinfo, h2, ?_, ?_⟩
    · rw [← h1]
      exact List.mem_map_of_mem _ hv
    · intro s' hs' ha'
      refine eq_of_mem_flatMap_nodup hgroupsnd hs' hinfo ha' ?_
      rw [← h1]
      exact List.mem_map_of_mem _ hv
  · intro hnone s hs ha
    rcases List.mem_map.mp ha with ⟨v, hv, hveq⟩
    have hpr : (a, s.seriesId) ∈ (((books.foldl detectStep []).filter
        (fun p => 2 ≤ p.2.volumes.length)).map mkSeriesInfo).flatMap
          (fun info => info.volumes.map (fun v => (v.book.asin, info.seriesId))) := by
      apply List.mem_flatMap_of_mem hs
      rw [← hveq]
      exact List.mem_map_of_mem _ hv
    exact (mapGet_none_forall hnone _ hpr) rfl

/-- witness for C2 at a concrete two-book series -/
theorem claim_C2_index_exactly_one_witness :
    ∃ s, s ∈ (SeriesManager.init.detectAndGroupSeries [exBook1, exBook2]).1.1 ∧
      s.seriesId = "alpha" ∧
      "W1" ∈ s.volumes.map (fun v => v.book.asin) ∧
      ∀ s', s' ∈ (SeriesManager.init.detectAndGroupSeries [exBook1, exBook2]).1.1 →
        "W1" ∈ s'.volumes.map (fun v => v.book.asin) → s' = s :=
  (claim_C2_index_exactly_one [exBook1, exBook2] (by decide) "W1").1 "alpha"
    (by decide)

end SeriesManagerJs
